import Mathlib

/-!
Verification of the text-cleaning front end of GPT-SoVITS.

This file gives a shallow embedding, in Lean 4, of the two source files
`GPT_SoVITS/text/vietnamese.py` and `GPT_SoVITS/text/cleaner.py`, and proves
(or refutes) the frozen specification claims about them.

Modelling conventions:
* Python strings are Lean `String`s; character-level work happens on
  `String.data : List Char` (one entry per Unicode code point, matching
  Python's character indexing and `len`).
* Python's regex classes `\s` and `\w` are Unicode-aware.  We model the
  fragment of them that the program's data can exercise: `\s` as the six
  ASCII whitespace characters, `\w` as ASCII alphanumerics, the underscore
  and the Vietnamese letters appearing in the source tables.  All concrete
  inputs used below stay inside this fragment.
* `str.lower()` is modelled characterwise on the ASCII range (the
  Vietnamese letters in the tables are already lowercase).
* Functions from modules that `cleaner.py` imports but whose sources are
  not part of this development (`chinese`, `chinese2`, `japanese`,
  `english`, `korean`, `cantonese`, the two `symbols` modules, and the
  `clean_special` helper) are abstract parameters gathered in an `Env`
  structure, except `clean_special`, which is modelled from the spec (see
  its doc comment).
* Python `assert` failures are modelled by returning `none`.
-/

namespace GPTSoVITS

/-! ## Character-level helpers (regex fragment) -/

/-- Fragment of Python's `\s` / `str.strip` whitespace class: the six ASCII
whitespace characters. -/
def isSpaceChar (c : Char) : Bool :=
  c == ' ' || c == '\t' || c == '\n' || c == '\r' || c == '\x0b' || c == '\x0c'

/-- The Vietnamese letters appearing in the source's tables and in the
allow-list regex of `text_normalize` (line 75): the 66 tone-marked vowels,
the bare quality-marked vowels and `đ`.  All are Unicode word characters
for Python's `\w`. -/
def VIET_WORD_CHARS : List Char :=
  ['ă', 'â', 'ê', 'ô', 'ơ', 'ư', 'đ',
   'à', 'á', 'ả', 'ã', 'ạ', 'ằ', 'ắ', 'ẳ', 'ẵ', 'ặ',
   'ầ', 'ấ', 'ẩ', 'ẫ', 'ậ', 'è', 'é', 'ẻ', 'ẽ', 'ẹ',
   'ề', 'ế', 'ể', 'ễ', 'ệ', 'ì', 'í', 'ỉ', 'ĩ', 'ị',
   'ò', 'ó', 'ỏ', 'õ', 'ọ', 'ồ', 'ố', 'ổ', 'ỗ', 'ộ',
   'ờ', 'ớ', 'ở', 'ỡ', 'ợ', 'ù', 'ú', 'ủ', 'ũ', 'ụ',
   'ừ', 'ứ', 'ử', 'ữ', 'ự', 'ỳ', 'ý', 'ỷ', 'ỹ', 'ỵ']

/-- Fragment of Python's `\w` (Unicode word character): ASCII alphanumerics,
underscore, and the Vietnamese letters of the source tables. -/
def isWordChar (c : Char) : Bool :=
  c.isAlpha || c.isDigit || c == '_' || VIET_WORD_CHARS.contains c

/-- The character class `[;:"']` replaced by a comma in `text_normalize`
(line 72). -/
def isPunctClassChar (c : Char) : Bool :=
  c == ';' || c == ':' || c == '"' || c == '\''

/-- The allow-list of `text_normalize` line 75:
`[^\w\s,.!?àáảãạ...ỵđ]` deletes everything not matched by this predicate.
(The explicitly listed Vietnamese characters are also word characters, as
in the Python regex.) -/
def isAllowedChar (c : Char) : Bool :=
  isWordChar c || isSpaceChar c || c == ',' || c == '.' || c == '!' || c == '?'

/-- ASCII uppercase-to-lowercase table: the fragment of `str.lower()` the
program's data exercises. -/
def ASCII_LOWER : List (Char × Char) :=
  [('A', 'a'), ('B', 'b'), ('C', 'c'), ('D', 'd'), ('E', 'e'), ('F', 'f'),
   ('G', 'g'), ('H', 'h'), ('I', 'i'), ('J', 'j'), ('K', 'k'), ('L', 'l'),
   ('M', 'm'), ('N', 'n'), ('O', 'o'), ('P', 'p'), ('Q', 'q'), ('R', 'r'),
   ('S', 's'), ('T', 't'), ('U', 'u'), ('V', 'v'), ('W', 'w'), ('X', 'x'),
   ('Y', 'y'), ('Z', 'z')]

/-- Characterwise model of Python's `str.lower()` (ASCII fragment). -/
def pyLower (c : Char) : Char :=
  (ASCII_LOWER.lookup c).getD c

/-- Python `str.strip()`: drop leading and trailing whitespace. -/
def pyStrip (l : List Char) : List Char :=
  ((l.dropWhile isSpaceChar).reverse.dropWhile isSpaceChar).reverse

/-- Worker for `re.sub(class+ , rep, s)`: replace every maximal run of
characters satisfying `p` by the single character `rep`.  The Boolean flag
records whether we are inside a run already emitted. -/
def collapseAux (p : Char → Bool) (rep : Char) : List Char → Bool → List Char
  | [], _ => []
  | c :: cs, inRun =>
    if p c then
      if inRun then collapseAux p rep cs true
      else rep :: collapseAux p rep cs true
    else c :: collapseAux p rep cs false

/-- Model of `re.sub(r'class+', rep, s)` for a single-character class: collapse runs. -/
def collapseRuns (p : Char → Bool) (rep : Char) (l : List Char) : List Char :=
  collapseAux p rep l false

/-! ## `vietnamese.py`: static tables -/

/-- The list `INITIALS` (vietnamese.py lines 8-12). -/
def INITIALS : List String :=
  ["b", "t", "th", "đ", "ch", "kh", "g", "h", "l", "m", "n",
   "nh", "ph", "r", "s", "tr", "v", "x", "qu", "gi", "k", "ng", "ngh",
   "c", "d", "p"]

/-- The list `FINALS` (vietnamese.py lines 15-27). -/
def FINALS : List String :=
  ["a", "ă", "â", "e", "ê", "i", "o", "ô", "ơ", "u", "ư", "y",
   "ai", "ao", "au", "ay", "eo", "êu", "ia", "iê", "iu", "oa", "oă",
   "oe", "oi", "ôi", "ơi", "ua", "uâ", "ue", "uê", "ui", "uo", "ươ",
   "uy", "yê", "ya", "âu", "ău", "iêu", "yêu", "uôi", "ươi", "ươu",
   "an", "ăn", "ân", "en", "ên", "in", "on", "ôn", "ơn", "un", "ưn", "yn",
   "ang", "ăng", "âng", "eng", "êng", "ing", "ong", "ông", "ơng", "ung", "ưng",
   "anh", "ênh", "inh", "oanh", "uênh",
   "ach", "êch", "ich", "och", "ôch", "ơch", "uch", "ưch",
   "ac", "ăc", "âc", "ec", "êc", "ic", "oc", "ôc", "ơc", "uc", "ưc",
   "ap", "ăp", "âp", "ep", "êp", "ip", "op", "ôp", "ơp", "up", "ưp",
   "at", "ăt", "ât", "et", "êt", "it", "ot", "ôt", "ơt", "ut", "ưt"]

/-- The list `SPECIAL` (vietnamese.py line 33). -/
def SPECIAL : List String := ["SP", "SP2", "SP3", "UNK"]

/-- The table `TONE_MAPPING` (vietnamese.py lines 39-52): tone-marked character ↦
(base character, tone digit).  Modelled as an association list with the
dictionary's (distinct) keys. -/
def TONE_MAPPING : List (Char × Char × String) :=
  [('à', 'a', "2"), ('á', 'a', "3"), ('ả', 'a', "4"), ('ã', 'a', "5"), ('ạ', 'a', "6"),
   ('ằ', 'ă', "2"), ('ắ', 'ă', "3"), ('ẳ', 'ă', "4"), ('ẵ', 'ă', "5"), ('ặ', 'ă', "6"),
   ('ầ', 'â', "2"), ('ấ', 'â', "3"), ('ẩ', 'â', "4"), ('ẫ', 'â', "5"), ('ậ', 'â', "6"),
   ('è', 'e', "2"), ('é', 'e', "3"), ('ẻ', 'e', "4"), ('ẽ', 'e', "5"), ('ẹ', 'e', "6"),
   ('ề', 'ê', "2"), ('ế', 'ê', "3"), ('ể', 'ê', "4"), ('ễ', 'ê', "5"), ('ệ', 'ê', "6"),
   ('ì', 'i', "2"), ('í', 'i', "3"), ('ỉ', 'i', "4"), ('ĩ', 'i', "5"), ('ị', 'i', "6"),
   ('ò', 'o', "2"), ('ó', 'o', "3"), ('ỏ', 'o', "4"), ('õ', 'o', "5"), ('ọ', 'o', "6"),
   ('ồ', 'ô', "2"), ('ố', 'ô', "3"), ('ổ', 'ô', "4"), ('ỗ', 'ô', "5"), ('ộ', 'ô', "6"),
   ('ờ', 'ơ', "2"), ('ớ', 'ơ', "3"), ('ở', 'ơ', "4"), ('ỡ', 'ơ', "5"), ('ợ', 'ơ', "6"),
   ('ù', 'u', "2"), ('ú', 'u', "3"), ('ủ', 'u', "4"), ('ũ', 'u', "5"), ('ụ', 'u', "6"),
   ('ừ', 'ư', "2"), ('ứ', 'ư', "3"), ('ử', 'ư', "4"), ('ữ', 'ư', "5"), ('ự', 'ư', "6"),
   ('ỳ', 'y', "2"), ('ý', 'y', "3"), ('ỷ', 'y', "4"), ('ỹ', 'y', "5"), ('ỵ', 'y', "6")]

/-! ## `vietnamese.py`: functions -/

/-- The function `text_normalize` (vietnamese.py lines 54-77), on character lists:
1. `re.sub(r'\s+', ' ', text.strip())`
2. `text.lower()`
3. `re.sub(r'[;:"\']+', ',', text)`
4. `re.sub(r'[^\w\s,.!?à...ỵđ]', '', text)` -/
def text_normalize_data (l : List Char) : List Char :=
  let t1 := collapseRuns isSpaceChar ' ' (pyStrip l)
  let t2 := t1.map pyLower
  let t3 := collapseRuns isPunctClassChar ',' t2
  t3.filter isAllowedChar

/-- The function `text_normalize` (vietnamese.py lines 54-77). -/
def text_normalize (text : String) : String :=
  ⟨text_normalize_data text.data⟩

/-- Loop body of `find_tone` (vietnamese.py lines 92-97), folding over the
characters with the accumulated de-toned result and current tone. -/
def findToneStep (acc : List Char × String) (c : Char) : List Char × String :=
  match TONE_MAPPING.lookup c with
  | some (base, tone) => (acc.1 ++ [base], tone)
  | none => (acc.1 ++ [c], acc.2)

/-- The function `find_tone` (vietnamese.py lines 79-99): de-tone a word, returning the
base word and the tone digit of the last tone-marked character
(default `"1"`). -/
def find_tone (word : String) : String × String :=
  let r := word.data.foldl findToneStep ([], "1")
  (⟨r.1⟩, r.2)

/-- First-match loop of `split_vietnamese_word` (vietnamese.py lines
119-123): try candidate initials in order; on the first prefix match return
it together with the rest of the word; `("", w)` if none matches. -/
def matchInitial : List String → String → String × String
  | [], w => ("", w)
  | i :: is, w =>
    if i.data.isPrefixOf w.data then (i, ⟨w.data.drop i.length⟩)
    else matchInitial is w

/-- The list `sorted(INITIALS, key=len, reverse=True)` (vietnamese.py line 117).
Python's sort is stable, so initials of equal length keep their order in
`INITIALS`. -/
def sorted_initials : List String :=
  ["ngh", "th", "ch", "kh", "nh", "ph", "tr", "qu", "gi", "ng",
   "b", "t", "đ", "g", "h", "l", "m", "n", "r", "s", "v", "x", "k", "c", "d", "p"]

/-- Python `str.replace(pat, rep)` specialised to a two-character pattern
and a two-character replacement (all four patterns of
`find_closest_final` have this shape): scan left to right, replacing
non-overlapping occurrences. -/
def replace2 (a b x y : Char) : List Char → List Char
  | [] => []
  | [c] => [c]
  | c :: d :: cs =>
    if c = a ∧ d = b then x :: y :: replace2 a b x y cs
    else c :: replace2 a b x y (d :: cs)

/-- String wrapper for `replace2`. -/
def strReplace2 (a b x y : Char) (s : String) : String :=
  ⟨replace2 a b x y s.data⟩

/-- The function `find_closest_final` (vietnamese.py lines 136-163): if `final` is not a
valid final, try the four rewrites `uo→ưo`, `ua→ưa`, `oi→ơi`, `ou→ơu` in
order (each applied to the original string) and return the first result
that is a valid final; otherwise return the input unchanged. -/
def find_closest_final (final : String) : String :=
  if final ∈ FINALS then final
  else
    let t1 := strReplace2 'u' 'o' 'ư' 'o' final
    if t1 ∈ FINALS then t1
    else
      let t2 := strReplace2 'u' 'a' 'ư' 'a' final
      if t2 ∈ FINALS then t2
      else
        let t3 := strReplace2 'o' 'i' 'ơ' 'i' final
        if t3 ∈ FINALS then t3
        else
          let t4 := strReplace2 'o' 'u' 'ơ' 'u' final
          if t4 ∈ FINALS then t4
          else final

/-- The function `split_vietnamese_word` (vietnamese.py lines 101-134): extract the tone,
match the longest initial prefix (via the descending-length candidate
order), and repair the final if it is not in the vocabulary.  The Python
code only accepts the repaired final when it is truthy (non-empty). -/
def split_vietnamese_word (word : String) : String × String × String :=
  let wt := find_tone word
  let im := matchInitial sorted_initials wt.1
  let initial := im.1
  let final0 := im.2
  let final :=
    if final0 ∉ FINALS then
      let closest_final := find_closest_final final0
      if closest_final ≠ "" then closest_final else final0
    else final0
  (initial, final, wt.2)

/-- Python `str.split()` with no argument: split on whitespace runs,
discarding empty pieces.  Scanner formulation; `acc` holds the reversed
characters of the in-progress word. -/
def pySplitAux : List Char → List Char → List (List Char)
  | [], acc => if acc = [] then [] else [acc.reverse]
  | c :: cs, acc =>
    if isSpaceChar c then
      if acc = [] then pySplitAux cs []
      else acc.reverse :: pySplitAux cs []
    else pySplitAux cs (c :: acc)

/-- Python `str.split()` on character lists. -/
def pySplit (l : List Char) : List (List Char) :=
  pySplitAux l []

/-- Python `str.split()` producing strings. -/
def pySplitStr (s : String) : List String :=
  (pySplit s.data).map fun l => ⟨l⟩

/-- The punctuation list of the `g2p` loop (vietnamese.py line 182). -/
def G2P_PUNCTS : List String := [",", ".", "!", "?"]

/-- The `current_phonemes` construction for a non-punctuation,
non-special word (vietnamese.py lines 194-209): emit the initial if
non-empty (`UNK` when not a known initial), the final if non-empty
(`UNK` when not a known final), and the tone digit when it is not `"1"`. -/
def wordCurrentPhonemes (word : String) : List String :=
  let ift := split_vietnamese_word word
  let initial := ift.1
  let final := ift.2.1
  let tone := ift.2.2
  let cur0 : List String := []
  let cur1 := if initial ≠ "" then cur0 ++ [if initial ∉ INITIALS then "UNK" else initial] else cur0
  let cur2 := if final ≠ "" then cur1 ++ [if final ∉ FINALS then "UNK" else final] else cur1
  if tone ≠ "1" then cur2 ++ [tone] else cur2

/-- The word loop of `g2p` (vietnamese.py lines 180-212), carrying the
accumulated phoneme list and word2ph list. -/
def g2pLoop : List String → List String → List Nat → List String × List Nat
  | [], phonemes, word2ph => (phonemes, word2ph)
  | word :: ws, phonemes, word2ph =>
    if word ∈ G2P_PUNCTS then
      g2pLoop ws (phonemes ++ [word]) (word2ph ++ [1])
    else if word ∈ SPECIAL then
      g2pLoop ws (phonemes ++ [word]) (word2ph ++ [1])
    else
      let current_phonemes := wordCurrentPhonemes word
      g2pLoop ws (phonemes ++ current_phonemes) (word2ph ++ [current_phonemes.length])

/-- The function `g2p` (vietnamese.py lines 165-214): normalize, split into words, and
convert each word. -/
def g2p (text : String) : List String × List Nat :=
  let normalized_text := text_normalize text
  let words := pySplitStr normalized_text
  g2pLoop words [] []

/-! ## `cleaner.py`: the dispatcher -/

/-- The `special` marker list (cleaner.py lines 7-10):
(marker substring, trigger language, replacement symbol). -/
def special : List (String × String × String) :=
  [("￥", "zh", "SP2"), ("^", "zh", "SP3")]

/-- Python's substring test `pat in s`. -/
def strContainsSub (s pat : String) : Bool :=
  go pat.data s.data
where
  /-- Check whether `pat` occurs as a contiguous sublist. -/
  go (pat : List Char) : List Char → Bool
    | [] => pat.isEmpty
    | c :: cs => pat.isPrefixOf (c :: cs) || go pat cs

/-- Python `str.replace(pat, rep)` for a non-empty pattern: scan left to
right and replace non-overlapping occurrences.  Structural recursion on a
fuel argument bounded by the list length (each step consumes at least one
character, so fuel `l.length` is always sufficient; the markers
substituted by `clean_special` are single characters, so the
empty-pattern corner of Python's `replace` is never exercised). -/
def strReplaceAux (pat rep : List Char) : Nat → List Char → List Char
  | _, [] => []
  | 0, l => l
  | fuel + 1, c :: cs =>
    if pat.isPrefixOf (c :: cs) ∧ pat ≠ [] then
      rep ++ strReplaceAux pat rep fuel (cs.drop (pat.length - 1))
    else
      c :: strReplaceAux pat rep fuel cs

/-- Python `str.replace` on strings. -/
def strReplace (s pat rep : String) : String :=
  ⟨strReplaceAux pat.data rep.data s.data.length s.data⟩

/-- The final symbol validation of `clean_text` (cleaner.py line 65):
`['UNK' if ph not in symbols else ph for ph in phones]`. -/
def validateSymbols (symbols : List String) (phones : List String) : List String :=
  phones.map fun ph => if ph ∉ symbols then "UNK" else ph

/-- An imported per-language module that is not part of this development:
its optional `text_normalize` attribute and its `g2p` function, used
either through the pair-returning shape (`zh`/`yue`/`vi` classes) or the
list-returning shape (`en`/plain classes). -/
structure ExtModule where
  normalize : Option (String → String)
  g2pPair : String → List String × List Nat
  g2pList : String → List String

/-- The `vietnamese` module of this development, packaged in the module
interface: it has a `text_normalize` attribute and a pair-returning `g2p`. -/
def vietnameseModule : ExtModule where
  normalize := some text_normalize
  g2pPair := g2p
  g2pList := fun t => (g2p t).1

/-- The ambient process state read by `clean_text`: the modules imported by
name, the two symbol tables, and the `version` environment variable. -/
structure Env where
  chinese : ExtModule
  chinese2 : ExtModule
  japanese : ExtModule
  english : ExtModule
  korean : ExtModule
  cantonese : ExtModule
  symbolsV1 : List String
  symbolsV2 : List String
  envVersion : Option String

/-- The registry `language_module_map` (cleaner.py lines 17-22 and 25-32), keyed by the
resolved version. -/
def language_module_map (version : String) : List (String × String) :=
  if version = "v1" then
    [("zh", "chinese"), ("ja", "japanese"), ("en", "english"), ("vi", "vietnamese")]
  else
    [("zh", "chinese2"), ("ja", "japanese"), ("en", "english"), ("ko", "korean"),
     ("yue", "cantonese"), ("vi", "vietnamese")]

/-- Model of `__import__("text." + name)`: resolve a module name to its
implementation; `vietnamese` is the concrete module of this development. -/
def getModule (env : Env) (moduleName : String) : ExtModule :=
  if moduleName = "chinese" then env.chinese
  else if moduleName = "chinese2" then env.chinese2
  else if moduleName = "japanese" then env.japanese
  else if moduleName = "english" then env.english
  else if moduleName = "korean" then env.korean
  else if moduleName = "cantonese" then env.cantonese
  else vietnameseModule

/-- Version resolution (cleaner.py lines 13-14): an explicit argument wins,
otherwise the `version` environment variable, defaulting to `"v2"`. -/
def resolvedVersion (env : Env) (version : Option String) : String :=
  match version with
  | some v => v
  | none => env.envVersion.getD "v2"

/-- Symbol-table selection (cleaner.py lines 15-16 and 23-24). -/
def activeSymbols (env : Env) (version : String) : List String :=
  if version = "v1" then env.symbolsV1 else env.symbolsV2

/-- Modelled from the spec: `clean_special` is called by `clean_text`
(cleaner.py line 40) but its definition is not among the source files of
this development.  Per the spec (§4.1), it "substitutes the marker with
the replacement symbol and otherwise reproduces the ordinary pipeline
(normalize → g2p → alignment) for that language", with the symbol
validation running unconditionally as the final step.  We model the
substitution by replacing the marker with a comma in the text, running the
ordinary per-class pipeline, mapping the comma phoneme to the replacement
symbol, and validating last. -/
def clean_special (env : Env) (text language special_s target_symbol : String)
    (version : String) : Option (List String × Option (List Nat) × String) :=
  let symbols := activeSymbols env version
  let text := strReplace text special_s ","
  let m := getModule env (((language_module_map version).lookup language).getD "vietnamese")
  let norm_text := match m.normalize with
    | some f => f text
    | none => text
  let subst := fun phones : List String =>
    validateSymbols symbols (phones.map fun ph => if ph = "," then target_symbol else ph)
  if language = "zh" ∨ language = "yue" then
    let pr := m.g2pPair norm_text
    if pr.1.length = pr.2.sum ∧ norm_text.length = pr.2.length then
      some (subst pr.1, some pr.2, norm_text)
    else none
  else if language = "vi" then
    let pr := m.g2pPair norm_text
    if pr.1.length = pr.2.sum then some (subst pr.1, some pr.2, norm_text)
    else none
  else if language = "en" then
    let phones := m.g2pList norm_text
    let phones := if phones.length < 4 then "," :: phones else phones
    some (subst phones, none, norm_text)
  else
    some (subst (m.g2pList norm_text), none, norm_text)

/-- The dispatcher `clean_text` (cleaner.py lines 12-66).  `Option` models the Python
`assert`s: `none` is an `AssertionError`. -/
def clean_text (env : Env) (text0 language0 : String) (version0 : Option String) :
    Option (List String × Option (List Nat) × String) :=
  let version := resolvedVersion env version0
  let symbols := activeSymbols env version
  let lmm := language_module_map version
  let fallback := (lmm.lookup language0).isNone
  let language := if fallback then "en" else language0
  let text := if fallback then " " else text0
  match special.find? fun st => strContainsSub text st.1 && (language == st.2.1) with
  | some st => clean_special env text language st.1 st.2.2 version
  | none =>
    let m := getModule env ((lmm.lookup language).getD "vietnamese")
    let norm_text := match m.normalize with
      | some f => f text
      | none => text
    if language = "zh" ∨ language = "yue" then
      let pr := m.g2pPair norm_text
      if pr.1.length = pr.2.sum ∧ norm_text.length = pr.2.length then
        some (validateSymbols symbols pr.1, some pr.2, norm_text)
      else none
    else if language = "vi" then
      let pr := m.g2pPair norm_text
      if pr.1.length = pr.2.sum then
        some (validateSymbols symbols pr.1, some pr.2, norm_text)
      else none
    else if language = "en" then
      let phones := m.g2pList norm_text
      let phones := if phones.length < 4 then "," :: phones else phones
      some (validateSymbols symbols phones, none, norm_text)
    else
      some (validateSymbols symbols (m.g2pList norm_text), none, norm_text)

/-! ## Helper lemmas about the Vietnamese g2p -/

/-- The tokens the `g2p` loop emits for one word (the three branches of
vietnamese.py lines 180-212 in one function; the two verbatim branches
append the word with alignment count 1, which equals the length of
`[word]`). -/
def g2pWordTokens (word : String) : List String :=
  if word ∈ G2P_PUNCTS then [word]
  else if word ∈ SPECIAL then [word]
  else wordCurrentPhonemes word

theorem g2pLoop_eq (ws : List String) (ph : List String) (w2 : List Nat) :
    g2pLoop ws ph w2 =
      (ph ++ (ws.map g2pWordTokens).flatten,
       w2 ++ ws.map fun w => (g2pWordTokens w).length) := by
  induction ws generalizing ph w2 with
  | nil => simp [g2pLoop]
  | cons w ws ih =>
    by_cases h1 : w ∈ G2P_PUNCTS
    · simp [g2pLoop, g2pWordTokens, h1, ih]
    · by_cases h2 : w ∈ SPECIAL
      · simp [g2pLoop, g2pWordTokens, h1, h2, ih]
      · simp [g2pLoop, g2pWordTokens, h1, h2, ih]

theorem g2p_eq (text : String) :
    g2p text =
      (((pySplitStr (text_normalize text)).map g2pWordTokens).flatten,
       (pySplitStr (text_normalize text)).map fun w => (g2pWordTokens w).length) := by
  simpa [g2p] using g2pLoop_eq (pySplitStr (text_normalize text)) [] []

theorem g2p_length_eq_sum (text : String) : (g2p text).1.length = (g2p text).2.sum := by
  simp [g2p_eq, List.length_flatten, List.map_map, Function.comp_def]

/-! ## C1: Vietnamese alignment invariant and the dispatcher's weak assert -/

/-- Claim C1: for every input text, the Vietnamese `g2p` returns
`(phonemes, word2ph)` with `sum(word2ph) = len(phonemes)`; consequently the
dispatcher's weak alignment assertion for language `"vi"` never fails
(`clean_text` with language `"vi"` always returns a result). -/
theorem C1_vi_alignment :
    (∀ text : String, (g2p text).2.sum = (g2p text).1.length) ∧
    (∀ (env : Env) (text : String) (version : Option String),
      (clean_text env text "vi" version).isSome = true) := by
  refine ⟨fun text => (g2p_length_eq_sum text).symm, fun env text version => ?_⟩
  unfold clean_text
  by_cases hv : resolvedVersion env version = "v1" <;>
    simp [language_module_map, hv, special, List.find?, List.lookup, getModule,
      vietnameseModule, g2p_length_eq_sum]

/-! ## C4: tone extraction -/

/-- Claim-side description of the per-character de-toning: a tone-marked
character is replaced by its base vowel, any other character is copied. -/
def detoneChar (c : Char) : Char :=
  match TONE_MAPPING.lookup c with
  | some (base, _) => base
  | none => c

/-- Claim-side description of the tone scan: the tone digit of the last
table-matching character, starting from the default `t`. -/
def lastToneFrom (t : String) (l : List Char) : String :=
  l.foldl (fun acc c =>
    match TONE_MAPPING.lookup c with
    | some (_, tone) => tone
    | none => acc) t

theorem findTone_foldl (l : List Char) (acc : List Char) (t : String) :
    l.foldl findToneStep (acc, t) = (acc ++ l.map detoneChar, lastToneFrom t l) := by
  induction l generalizing acc t with
  | nil => simp [lastToneFrom]
  | cons c cs ih =>
    cases h : TONE_MAPPING.lookup c with
    | none => simp [findToneStep, h, ih, lastToneFrom, detoneChar]
    | some bt => simp [findToneStep, h, ih, lastToneFrom, detoneChar]

theorem find_tone_eq_map (w : String) :
    find_tone w = (⟨w.data.map detoneChar⟩, lastToneFrom "1" w.data) := by
  simp [find_tone, findTone_foldl]

/-- Claim C4: `find_tone` maps each character through the diacritic table
(base vowel for a table character, the character itself otherwise), the
returned tone digit is that of the last table-matching character (default
`"1"`); in particular a single table character `c` with entry
`(base, tone)` gives `(base, tone)`, and a single non-table character is
returned unchanged with tone `"1"`. -/
theorem C4_find_tone :
    (∀ w : String, find_tone w = (⟨w.data.map detoneChar⟩, lastToneFrom "1" w.data)) ∧
    (∀ (c base : Char) (tone : String), TONE_MAPPING.lookup c = some (base, tone) →
      find_tone ⟨[c]⟩ = (⟨[base]⟩, tone)) ∧
    (∀ c : Char, TONE_MAPPING.lookup c = none → find_tone ⟨[c]⟩ = (⟨[c]⟩, "1")) := by
  refine ⟨find_tone_eq_map, fun c base tone h => ?_, fun c h => ?_⟩
  · rw [find_tone_eq_map ⟨[c]⟩]
    simp [detoneChar, lastToneFrom, h]
  · rw [find_tone_eq_map ⟨[c]⟩]
    simp [detoneChar, lastToneFrom, h]

/-- Witness for C4 at concrete inputs: the table character `'à'` and the
non-table character `'z'`. -/
theorem C4_find_tone_witness :
    find_tone "à" = ("a", "2") ∧ find_tone "z" = ("z", "1") :=
  ⟨C4_find_tone.2.1 'à' 'a' "2" (by decide), C4_find_tone.2.2 'z' (by decide)⟩

/-! ## C6: per-word emission of the Vietnamese g2p -/

/-- Claim-side description (C6) of what the `g2p` loop emits for one word:
a punctuation mark or reserved special token verbatim; otherwise the
initial if non-empty (`UNK` if unknown), the final if non-empty (`UNK` if
unknown), then the tone digit when it is not `"1"`. -/
def claimWordTokens (word : String) : List String :=
  if word ∈ G2P_PUNCTS ∨ word ∈ SPECIAL then [word]
  else
    let ift := split_vietnamese_word word
    (if ift.1 ≠ "" then [if ift.1 ∈ INITIALS then ift.1 else "UNK"] else []) ++
      (if ift.2.1 ≠ "" then [if ift.2.1 ∈ FINALS then ift.2.1 else "UNK"] else []) ++
      (if ift.2.2 ≠ "1" then [ift.2.2] else [])

theorem g2pWordTokens_eq_claim (w : String) : g2pWordTokens w = claimWordTokens w := by
  simp only [g2pWordTokens, claimWordTokens, wordCurrentPhonemes]
  by_cases h1 : w ∈ G2P_PUNCTS
  · simp [h1]
  · by_cases h2 : w ∈ SPECIAL
    · simp [h1, h2]
    · simp only [h1, h2, if_false, false_or,
        if_neg (by simp [h1, h2] : ¬(w ∈ G2P_PUNCTS ∨ w ∈ SPECIAL))]
      split_ifs <;> simp_all [ite_not]

theorem claimWordTokens_length_le (w : String) : (claimWordTokens w).length ≤ 3 := by
  simp only [claimWordTokens]
  split_ifs <;> simp

/-- Claim C6: in the Vietnamese `g2p`, every word that is one of the four
punctuation marks or a reserved special token is emitted verbatim with
alignment count 1; any other word contributes its non-empty initial
(`UNK` when unknown), its non-empty final (`UNK` when unknown) and its
tone digit when different from `"1"`, and the word's `word2ph` entry is
the number of tokens emitted (at most 3). -/
theorem C6_g2p_per_word :
    (∀ w : String, g2pWordTokens w = claimWordTokens w) ∧
    (∀ text : String,
      g2p text =
        (((pySplitStr (text_normalize text)).map claimWordTokens).flatten,
         (pySplitStr (text_normalize text)).map fun w => (claimWordTokens w).length)) ∧
    (∀ w : String, (claimWordTokens w).length ≤ 3) := by
  refine ⟨g2pWordTokens_eq_claim, fun text => ?_, claimWordTokens_length_le⟩
  have h : ∀ ws : List String,
      ws.map g2pWordTokens = ws.map claimWordTokens :=
    fun ws => List.map_congr_left fun w _ => g2pWordTokens_eq_claim w
  rw [g2p_eq, h]
  congr 1
  exact List.map_congr_left fun w _ => by rw [g2pWordTokens_eq_claim]

/-! ## C10: shape of word2ph -/

theorem strMk_eq_empty_iff (l : List Char) : (⟨l⟩ : String) = "" ↔ l = [] := by
  constructor
  · intro h
    exact congrArg String.data h
  · intro h
    rw [h]

theorem pySplitAux_mem_ne_nil :
    ∀ (l acc : List Char) (w : List Char), w ∈ pySplitAux l acc → w ≠ [] := by
  intro l
  induction l with
  | nil =>
    intro acc w hw
    rw [pySplitAux] at hw
    split at hw
    · cases hw
    · rename_i hacc
      rcases List.mem_singleton.mp hw with rfl
      simpa using hacc
  | cons c cs ih =>
    intro acc w hw
    rw [pySplitAux] at hw
    split at hw
    · split at hw
      · exact ih [] w hw
      · rename_i hacc
        rcases List.mem_cons.mp hw with rfl | h1
        · simpa using hacc
        · exact ih [] w h1
    · exact ih (c :: acc) w hw

theorem pySplit_mem_ne_nil (l : List Char) (w : List Char) (hw : w ∈ pySplit l) : w ≠ [] :=
  pySplitAux_mem_ne_nil l [] w hw

theorem pySplitStr_mem_ne_empty (s : String) (w : String) (hw : w ∈ pySplitStr s) :
    w ≠ "" := by
  rcases List.mem_map.mp hw with ⟨wl, hwl, rfl⟩
  rw [Ne, strMk_eq_empty_iff]
  exact pySplit_mem_ne_nil s.data wl hwl

theorem find_tone_data_length (w : String) : (find_tone w).1.data.length = w.data.length := by
  rw [find_tone_eq_map w]
  simp

theorem sorted_initials_ne_empty : ∀ i ∈ sorted_initials, i ≠ "" := by decide

theorem FINALS_ne_empty : ∀ f ∈ FINALS, f ≠ "" := by decide

theorem matchInitial_cases (L : List String) (w : String) :
    matchInitial L w = ("", w) ∨ (matchInitial L w).1 ∈ L := by
  induction L with
  | nil => simp [matchInitial]
  | cons i is ih =>
    rw [matchInitial]
    split
    · right
      simp
    · rcases ih with h | h
      · left
        exact h
      · right
        exact List.mem_cons_of_mem _ h

theorem split_initial_or_final_ne_empty (w : String) (hw : w ≠ "") :
    (split_vietnamese_word w).1 ≠ "" ∨ (split_vietnamese_word w).2.1 ≠ "" := by
  have hlen : (find_tone w).1 ≠ "" := by
    intro h
    apply hw
    have : (find_tone w).1.data = [] := congrArg String.data h
    have hl := find_tone_data_length w
    rw [this] at hl
    cases hd : w.data with
    | nil =>
      cases w
      simpa [String.ext_iff] using hd
    | cons c cs => simp [hd] at hl
  rcases matchInitial_cases sorted_initials (find_tone w).1 with h | h
  · right
    simp only [split_vietnamese_word, h]
    split_ifs <;> assumption
  · left
    simp only [split_vietnamese_word] at h ⊢
    exact sorted_initials_ne_empty _ h

theorem wordCurrentPhonemes_length_pos (w : String)
    (h : (split_vietnamese_word w).1 ≠ "" ∨ (split_vietnamese_word w).2.1 ≠ "") :
    1 ≤ (wordCurrentPhonemes w).length := by
  simp only [wordCurrentPhonemes]
  rcases h with h | h <;> split_ifs <;> simp_all

theorem wordCurrentPhonemes_length_le (w : String) : (wordCurrentPhonemes w).length ≤ 3 := by
  simp only [wordCurrentPhonemes]
  split_ifs <;> simp

/-- Claim C10: the `word2ph` list of the Vietnamese `g2p` has exactly one
entry per whitespace-delimited word of the normalized text, and every
entry is between 1 and 3. -/
theorem C10_word2ph_shape (text : String) :
    (g2p text).2.length = (pySplitStr (text_normalize text)).length ∧
    ∀ e ∈ (g2p text).2, 1 ≤ e ∧ e ≤ 3 := by
  rw [g2p_eq]
  refine ⟨by simp, ?_⟩
  intro e he
  rcases List.mem_map.mp he with ⟨w, hw, rfl⟩
  have hne : w ≠ "" := pySplitStr_mem_ne_empty _ _ hw
  unfold g2pWordTokens
  split_ifs with h1 h2
  · simp
  · simp
  · exact ⟨wordCurrentPhonemes_length_pos w (split_initial_or_final_ne_empty w hne),
      wordCurrentPhonemes_length_le w⟩

/-! ## C5: syllable splitting -/

/-- Claim-side description (C5) of the final-repair cascade: keep a valid
final; otherwise try the rewrites `uo→ưo`, `ua→ưa`, `oi→ơi`, `ou→ơu` in
that fixed order and accept the first whose result is a valid final; if
none succeeds keep the original string. -/
def claimRepairFinal (cand : String) : String :=
  if cand ∈ FINALS then cand
  else
    match [strReplace2 'u' 'o' 'ư' 'o' cand, strReplace2 'u' 'a' 'ư' 'a' cand,
        strReplace2 'o' 'i' 'ơ' 'i' cand, strReplace2 'o' 'u' 'ơ' 'u' cand].find?
        (fun t => decide (t ∈ FINALS)) with
    | some t => t
    | none => cand

theorem repair_eq_claim (cand : String) :
    (if cand ∉ FINALS then
      if find_closest_final cand ≠ "" then find_closest_final cand else cand
     else cand) = claimRepairFinal cand := by
  by_cases hc : cand ∈ FINALS
  · simp [hc, claimRepairFinal]
  · by_cases h1 : strReplace2 'u' 'o' 'ư' 'o' cand ∈ FINALS
    · simp [hc, h1, claimRepairFinal, find_closest_final, List.find?,
        FINALS_ne_empty _ h1]
    · by_cases h2 : strReplace2 'u' 'a' 'ư' 'a' cand ∈ FINALS
      · simp [hc, h1, h2, claimRepairFinal, find_closest_final, List.find?,
          FINALS_ne_empty _ h2]
      · by_cases h3 : strReplace2 'o' 'i' 'ơ' 'i' cand ∈ FINALS
        · simp [hc, h1, h2, h3, claimRepairFinal, find_closest_final, List.find?,
            FINALS_ne_empty _ h3]
        · by_cases h4 : strReplace2 'o' 'u' 'ơ' 'u' cand ∈ FINALS
          · simp [hc, h1, h2, h3, h4, claimRepairFinal, find_closest_final, List.find?,
              FINALS_ne_empty _ h4]
          · by_cases h0 : cand = ""
            · subst h0
              decide
            · simp [hc, h1, h2, h3, h4, h0, claimRepairFinal, find_closest_final,
                List.find?]

theorem sorted_initials_sorted :
    sorted_initials.Pairwise fun a b => b.length ≤ a.length := by decide

theorem sorted_initials_perm : sorted_initials.Perm INITIALS := by decide

theorem matchInitial_prefix_spec (L : List String) (w : String) :
    (matchInitial L w = ("", w) ∧ ∀ j ∈ L, j.data.isPrefixOf w.data = false) ∨
    ((matchInitial L w).1 ∈ L ∧ (matchInitial L w).1.data.isPrefixOf w.data = true ∧
      (matchInitial L w).2 = ⟨w.data.drop (matchInitial L w).1.length⟩) := by
  induction L with
  | nil =>
    left
    exact ⟨rfl, by simp⟩
  | cons i is ih =>
    by_cases h : i.data.isPrefixOf w.data = true
    · right
      rw [matchInitial, if_pos h]
      exact ⟨List.mem_cons_self i is, h, rfl⟩
    · rw [matchInitial, if_neg h]
      rcases ih with ⟨heq, hnone⟩ | ⟨hmem, hpre, hrest⟩
      · left
        refine ⟨heq, fun j hj => ?_⟩
        rcases List.mem_cons.mp hj with rfl | hj2
        · exact Bool.eq_false_iff.mpr h
        · exact hnone j hj2
      · right
        exact ⟨List.mem_cons_of_mem i hmem, hpre, hrest⟩

theorem matchInitial_longest (L : List String) (w : String)
    (hL : L.Pairwise fun a b => b.length ≤ a.length)
    (j : String) (hj : j ∈ L) (hpre : j.data.isPrefixOf w.data = true) :
    j.length ≤ (matchInitial L w).1.length := by
  induction L with
  | nil => simp at hj
  | cons i is ih =>
    rcases List.pairwise_cons.mp hL with ⟨hhead, htail⟩
    by_cases h : i.data.isPrefixOf w.data = true
    · rw [matchInitial, if_pos h]
      rcases List.mem_cons.mp hj with rfl | hj2
      · exact Nat.le_refl _
      · exact hhead j hj2
    · rw [matchInitial, if_neg h]
      rcases List.mem_cons.mp hj with rfl | hj2
      · exact absurd hpre h
      · exact ih htail hj2

/-- Claim C5: `split_vietnamese_word` extracts the tone first; the initial is
the longest prefix of the de-toned word among the initials (tried in
descending length order, first match wins, empty if none matches); the
remainder is the candidate final, repaired by the fixed ordered rewrite
cascade (first valid rewrite wins, original kept when none succeeds). -/
theorem C5_split_word (w : String) :
    (split_vietnamese_word w).2.2 = (find_tone w).2 ∧
    (((split_vietnamese_word w).1 = "" ∧
        (∀ j ∈ INITIALS, j.data.isPrefixOf (find_tone w).1.data = false) ∧
        (split_vietnamese_word w).2.1 = claimRepairFinal (find_tone w).1) ∨
      ((split_vietnamese_word w).1 ∈ INITIALS ∧
        (split_vietnamese_word w).1.data.isPrefixOf (find_tone w).1.data = true ∧
        (∀ j ∈ INITIALS, j.data.isPrefixOf (find_tone w).1.data = true →
          j.length ≤ (split_vietnamese_word w).1.length) ∧
        (split_vietnamese_word w).2.1 =
          claimRepairFinal ⟨(find_tone w).1.data.drop (split_vietnamese_word w).1.length⟩)) := by
  have hmem : ∀ s : String, s ∈ sorted_initials ↔ s ∈ INITIALS :=
    fun s => sorted_initials_perm.mem_iff
  refine ⟨by simp only [split_vietnamese_word], ?_⟩
  rcases matchInitial_prefix_spec sorted_initials (find_tone w).1 with
    ⟨heq, hnone⟩ | ⟨hmemi, hpre, hrest⟩
  · left
    have h1 : (split_vietnamese_word w).1 = "" := by
      simp only [split_vietnamese_word, heq]
    have h2 : (split_vietnamese_word w).2.1 = claimRepairFinal (find_tone w).1 := by
      simp only [split_vietnamese_word, heq]
      exact repair_eq_claim (find_tone w).1
    exact ⟨h1, fun j hj => hnone j ((hmem j).mpr hj), h2⟩
  · right
    have hio : (split_vietnamese_word w).1 = (matchInitial sorted_initials (find_tone w).1).1 := by
      simp only [split_vietnamese_word]
    refine ⟨hio ▸ (hmem _).mp hmemi, hio ▸ hpre, fun j hj hp => ?_, ?_⟩
    · exact hio ▸ matchInitial_longest sorted_initials (find_tone w).1
        sorted_initials_sorted j ((hmem j).mpr hj) hp
    · rw [hio]
      simp only [split_vietnamese_word, hrest]
      exact repair_eq_claim _

/-- Witness for C5 at the concrete word `"chào"` (initial `"ch"`, final
`"ao"`, tone `"2"`). -/
theorem C5_split_word_witness : (split_vietnamese_word "chào").2.2 = (find_tone "chào").2 :=
  (C5_split_word "chào").1

/-! ## C7: normalization and its fixpoint behaviour

`text_normalize` is not idempotent: deleting a disallowed character
(step 4) can leave a duplicated or boundary space that only the next
pass's whitespace collapsing removes.  We prove that a second application
reaches a fixpoint. -/

/-- A character that a `text_normalize` output can contain: it survives the
allow-list filter, is fixed by lowercasing, and is not in the
comma-replacement class. -/
def TameChar (c : Char) : Prop :=
  isAllowedChar c = true ∧ pyLower c = c ∧ isPunctClassChar c = false

theorem tame_space : TameChar ' ' := by
  refine ⟨by decide, by decide, by decide⟩

theorem tame_comma : TameChar ',' := by
  refine ⟨by decide, by decide, by decide⟩

theorem pyLower_idem (c : Char) : pyLower (pyLower c) = pyLower c := by
  have hval : ∀ p ∈ ASCII_LOWER, ASCII_LOWER.lookup p.2 = none := by decide
  cases h : ASCII_LOWER.lookup c with
  | none => simp [pyLower, h]
  | some d =>
    have hmem : (c, d) ∈ ASCII_LOWER := by
      rcases List.lookup_eq_some_iff.mp h with ⟨l1, l2, heq, -⟩
      rw [heq]
      exact List.mem_append_right _ (List.mem_cons_self _ _)
    simp [pyLower, h, hval (c, d) hmem]

theorem allowed_not_punct (c : Char) (h : isAllowedChar c = true) :
    isPunctClassChar c = false := by
  by_contra hne
  have hp : isPunctClassChar c = true := by
    cases hq : isPunctClassChar c
    · exact absurd hq hne
    · rfl
  have hcs : ((c = ';' ∨ c = ':') ∨ c = '"') ∨ c = '\'' := by
    simpa [isPunctClassChar, beq_iff_eq] using hp
  rcases hcs with ((rfl | rfl) | rfl) | rfl <;> exact absurd h (by decide)

theorem mem_collapseAux {p : Char → Bool} {rep c : Char} :
    ∀ {l : List Char} {b : Bool}, c ∈ collapseAux p rep l b → c = rep ∨ c ∈ l := by
  intro l
  induction l with
  | nil => intro b h; simp [collapseAux] at h
  | cons d ds ih =>
    intro b h
    rw [collapseAux] at h
    by_cases hp : p d = true
    · rw [if_pos hp] at h
      cases b with
      | true =>
        rcases ih (b := true) h with h1 | h1
        · exact Or.inl h1
        · exact Or.inr (List.mem_cons_of_mem d h1)
      | false =>
        rcases List.mem_cons.mp h with rfl | h1
        · exact Or.inl rfl
        · rcases ih (b := true) h1 with h2 | h2
          · exact Or.inl h2
          · exact Or.inr (List.mem_cons_of_mem d h2)
    · rw [if_neg hp] at h
      rcases List.mem_cons.mp h with rfl | h1
      · exact Or.inr (List.mem_cons_self _ _)
      · rcases ih (b := false) h1 with h2 | h2
        · exact Or.inl h2
        · exact Or.inr (List.mem_cons_of_mem d h2)

theorem mem_pyStrip {c : Char} {l : List Char} (h : c ∈ pyStrip l) : c ∈ l := by
  unfold pyStrip at h
  rw [List.mem_reverse] at h
  have h2 : c ∈ (l.dropWhile isSpaceChar).reverse :=
    (List.dropWhile_sublist _).subset h
  rw [List.mem_reverse] at h2
  exact (List.dropWhile_sublist _).subset h2

theorem head?_dropWhile_false {p : Char → Bool} {l : List Char} {c : Char}
    (h : (l.dropWhile p).head? = some c) : p c = false := by
  have := List.head?_dropWhile_not p l
  rw [h] at this
  exact this

theorem getLast?_cons_ne {a : Char} {t : List Char} (h : t ≠ []) :
    (a :: t).getLast? = t.getLast? := by
  cases t with
  | nil => exact absurd rfl h
  | cons b bs => rfl

theorem ne_nil_of_getLast?_eq_some {t : List Char} {c : Char}
    (h : t.getLast? = some c) : t ≠ [] := by
  intro heq
  rw [heq] at h
  simp at h

theorem getLast?_dropWhile {p : Char → Bool} :
    ∀ {x : List Char}, x.dropWhile p ≠ [] → (x.dropWhile p).getLast? = x.getLast? := by
  intro x
  induction x with
  | nil => intro h; simp at h
  | cons c cs ih =>
    intro h
    by_cases hp : p c = true
    · rw [List.dropWhile_cons_of_pos hp] at h ⊢
      have hcs : cs ≠ [] := by
        intro heq
        rw [heq] at h
        simp at h
      rw [ih h, getLast?_cons_ne hcs]
    · rw [List.dropWhile_cons_of_neg (by simpa using hp)]

theorem getLast?_collapseAux {p : Char → Bool} {rep : Char} :
    ∀ {l : List Char} {b : Bool} {c : Char}, l.getLast? = some c → p c = false →
      (collapseAux p rep l b).getLast? = some c := by
  intro l
  induction l with
  | nil => intro b c h; simp at h
  | cons d ds ih =>
    intro b c h hc
    cases hds : ds with
    | nil =>
      subst hds
      have hd : d = c := by simpa using h
      rw [collapseAux, if_neg (fun hp => by rw [hd, hc] at hp; cases hp)]
      simp [collapseAux, hd]
    | cons e es =>
      subst hds
      have hlast : (e :: es).getLast? = some c := by
        rwa [getLast?_cons_ne (by simp)] at h
      have htail : ∀ b2 : Bool, (collapseAux p rep (e :: es) b2).getLast? = some c :=
        fun b2 => ih hlast hc
      have hne : ∀ b2 : Bool, collapseAux p rep (e :: es) b2 ≠ [] :=
        fun b2 => ne_nil_of_getLast?_eq_some (htail b2)
      rw [collapseAux]
      by_cases hp : p d = true
      · rw [if_pos hp]
        cases b with
        | true => exact htail true
        | false =>
          simp only [Bool.false_eq_true, if_false]
          rw [getLast?_cons_ne (hne true)]
          exact htail true
      · rw [if_neg hp]
        rw [getLast?_cons_ne (hne false)]
        exact htail false

theorem head?_collapseAux_true {p : Char → Bool} {rep : Char} :
    ∀ {l : List Char} {c : Char}, (collapseAux p rep l true).head? = some c →
      p c = false := by
  intro l
  induction l with
  | nil => intro c h; simp [collapseAux] at h
  | cons d ds ih =>
    intro c h
    rw [collapseAux] at h
    by_cases hp : p d = true
    · rw [if_pos hp] at h
      exact ih h
    · rw [if_neg hp] at h
      have hcd : d = c := by simpa using h
      subst hcd
      exact Bool.eq_false_iff.mpr hp

/-- No two adjacent characters of `l` both satisfy `p`. -/
def NoRun (p : Char → Bool) (l : List Char) : Prop :=
  l.Chain' fun a b => ¬(p a = true ∧ p b = true)

theorem collapseAux_no_match {p : Char → Bool} {rep : Char} :
    ∀ {l : List Char}, (∀ c ∈ l, p c = false) → ∀ b, collapseAux p rep l b = l := by
  intro l
  induction l with
  | nil => intro h b; rfl
  | cons d ds ih =>
    intro h b
    have hd : p d = false := h d (List.mem_cons_self _ _)
    rw [collapseAux, if_neg (by rw [hd]; exact fun hcon => by cases hcon)]
    rw [ih (fun c hc => h c (List.mem_cons_of_mem d hc)) false]

theorem collapseAux_vals {p : Char → Bool} {rep : Char} :
    ∀ {l : List Char} {b : Bool} {c : Char}, c ∈ collapseAux p rep l b →
      p c = true → c = rep := by
  intro l
  induction l with
  | nil => intro b c h; simp [collapseAux] at h
  | cons d ds ih =>
    intro b c h hc
    rw [collapseAux] at h
    by_cases hp : p d = true
    · rw [if_pos hp] at h
      cases b with
      | true => exact ih (b := true) h hc
      | false =>
        rcases List.mem_cons.mp h with rfl | h1
        · rfl
        · exact ih (b := true) h1 hc
    · rw [if_neg hp] at h
      rcases List.mem_cons.mp h with rfl | h1
      · exact absurd hc hp
      · exact ih (b := false) h1 hc

theorem collapseAux_norun {p : Char → Bool} {rep : Char} :
    ∀ (l : List Char) (b : Bool), NoRun p (collapseAux p rep l b) := by
  intro l
  induction l with
  | nil => intro b; exact List.chain'_nil
  | cons d ds ih =>
    intro b
    rw [collapseAux]
    by_cases hp : p d = true
    · rw [if_pos hp]
      cases b with
      | true => exact ih true
      | false =>
        simp only [Bool.false_eq_true, if_false]
        refine List.chain'_cons'.mpr ⟨?_, ih true⟩
        intro y hy
        have : p y = false := head?_collapseAux_true (by simpa using hy)
        intro hcon
        rw [this] at hcon
        cases hcon.2
    · rw [if_neg hp]
      refine List.chain'_cons'.mpr ⟨?_, ih false⟩
      intro y hy
      intro hcon
      exact hp hcon.1

theorem collapseAux_eq_self {p : Char → Bool} {rep : Char} :
    ∀ {l : List Char}, (∀ c ∈ l, p c = true → c = rep) → NoRun p l →
      ∀ {b : Bool}, (b = true → ∀ c, l.head? = some c → p c = false) →
      collapseAux p rep l b = l := by
  intro l
  induction l with
  | nil => intro hvals hrun b hb; rfl
  | cons d ds ih =>
    intro hvals hrun b hb
    rw [collapseAux]
    by_cases hp : p d = true
    · have hd : d = rep := hvals d (List.mem_cons_self _ _) hp
      cases b with
      | true => exact absurd hp (by rw [hb rfl d rfl]; exact fun h => by cases h)
      | false =>
        simp only [if_pos hp, Bool.false_eq_true, if_false]
        have hds : collapseAux p rep ds true = ds := by
          refine ih (fun c hc h => hvals c (List.mem_cons_of_mem d hc) h)
            (List.Chain'.tail hrun) ?_
          intro _ c hc
          cases ds with
          | nil => cases hc
          | cons e es =>
            have he : d :: e :: es = d :: e :: es := rfl
            have hrel := List.chain'_cons.mp hrun
            have hce : e = c := by simpa using hc
            subst hce
            cases hq : p e
            · rfl
            · exact absurd ⟨hp, hq⟩ hrel.1
        rw [hds, ← hd]
    · rw [if_neg hp]
      have hds : collapseAux p rep ds false = ds :=
        ih (fun c hc h => hvals c (List.mem_cons_of_mem d hc) h)
          (List.Chain'.tail hrun) (fun hcon => by cases hcon)
      rw [hds]

theorem head?_pyStrip_false {l : List Char} {c : Char}
    (h : (pyStrip l).head? = some c) : isSpaceChar c = false := by
  unfold pyStrip at h
  rw [List.head?_reverse] at h
  have hne : (l.dropWhile isSpaceChar).reverse.dropWhile isSpaceChar ≠ [] :=
    ne_nil_of_getLast?_eq_some h
  rw [getLast?_dropWhile hne, List.getLast?_reverse] at h
  exact head?_dropWhile_false h

theorem getLast?_pyStrip_false {l : List Char} {c : Char}
    (h : (pyStrip l).getLast? = some c) : isSpaceChar c = false := by
  unfold pyStrip at h
  rw [List.getLast?_reverse] at h
  exact head?_dropWhile_false h

theorem dropWhile_eq_self_of_head {p : Char → Bool} {l : List Char}
    (h : ∀ c, l.head? = some c → p c = false) : l.dropWhile p = l := by
  cases l with
  | nil => rfl
  | cons d ds =>
    have hd : p d = false := h d rfl
    rw [List.dropWhile_cons_of_neg (by rw [hd]; exact fun hcon => by cases hcon)]

theorem pyStrip_eq_self {l : List Char}
    (hh : ∀ c, l.head? = some c → isSpaceChar c = false)
    (hl : ∀ c, l.getLast? = some c → isSpaceChar c = false) : pyStrip l = l := by
  unfold pyStrip
  rw [dropWhile_eq_self_of_head hh]
  rw [dropWhile_eq_self_of_head (fun c hc => hl c (by rwa [List.head?_reverse] at hc))]
  exact List.reverse_reverse l

theorem head?_collapseAux_of_head {p : Char → Bool} {rep : Char} {l : List Char}
    (h : ∀ c, l.head? = some c → p c = false) (b : Bool) :
    ∀ c, (collapseAux p rep l b).head? = some c → p c = false := by
  cases l with
  | nil => intro c hc; simp [collapseAux] at hc
  | cons d ds =>
    have hd : p d = false := h d rfl
    rw [collapseAux, if_neg (by rw [hd]; exact fun hcon => by cases hcon)]
    intro c hc
    have : d = c := by simpa using hc
    subst this
    exact hd

theorem collapseStrip_fix (l : List Char) :
    collapseRuns isSpaceChar ' '
        (pyStrip (collapseRuns isSpaceChar ' ' (pyStrip l))) =
      collapseRuns isSpaceChar ' ' (pyStrip l) := by
  set z := collapseRuns isSpaceChar ' ' (pyStrip l) with hz
  have hhead : ∀ c, z.head? = some c → isSpaceChar c = false := by
    intro c hc
    exact head?_collapseAux_of_head (fun d hd => head?_pyStrip_false hd) false c hc
  have hlast : ∀ c, z.getLast? = some c → isSpaceChar c = false := by
    intro c hc
    cases hp : (pyStrip l).getLast? with
    | none =>
      have : pyStrip l = [] := by
        cases hq : pyStrip l
        · rfl
        · rw [hq] at hp; simp [List.getLast?] at hp
      rw [hz, this] at hc
      simp [collapseRuns, collapseAux] at hc
    | some d =>
      have hd : isSpaceChar d = false := getLast?_pyStrip_false hp
      have := @getLast?_collapseAux isSpaceChar ' ' (pyStrip l) false d hp hd
      rw [hz] at hc
      rw [collapseRuns] at hc
      rw [this] at hc
      cases hc
      exact hd
  rw [pyStrip_eq_self hhead hlast]
  rw [hz]
  rw [collapseRuns]
  exact collapseAux_eq_self
    (fun c hc h => collapseAux_vals hc h)
    (collapseAux_norun _ _)
    (fun hcon => by cases hcon)

theorem map_eq_self_of_fixed {f : Char → Char} :
    ∀ {l : List Char}, (∀ c ∈ l, f c = c) → l.map f = l := by
  intro l
  induction l with
  | nil => intro h; rfl
  | cons d ds ih =>
    intro h
    rw [List.map_cons, h d (List.mem_cons_self _ _),
      ih fun c hc => h c (List.mem_cons_of_mem d hc)]

theorem tame_text_normalize_data (l : List Char) :
    ∀ c ∈ text_normalize_data l, TameChar c := by
  intro c hc
  simp only [text_normalize_data] at hc
  have hall : isAllowedChar c = true := List.of_mem_filter hc
  have hc3 := List.mem_of_mem_filter hc
  have hlow : pyLower c = c := by
    rcases mem_collapseAux hc3 with rfl | hc2
    · exact tame_comma.2.1
    · rcases List.mem_map.mp hc2 with ⟨d, -, rfl⟩
      exact pyLower_idem d
  exact ⟨hall, hlow, allowed_not_punct c hall⟩

theorem text_normalize_data_of_tame (l : List Char) (htame : ∀ c ∈ l, TameChar c) :
    text_normalize_data l = collapseRuns isSpaceChar ' ' (pyStrip l) := by
  simp only [text_normalize_data]
  have h1 : ∀ c ∈ collapseRuns isSpaceChar ' ' (pyStrip l), TameChar c := by
    intro c hc
    rcases mem_collapseAux hc with rfl | hc2
    · exact tame_space
    · exact htame c (mem_pyStrip hc2)
  rw [map_eq_self_of_fixed fun c hc => (h1 c hc).2.1]
  rw [show collapseRuns isPunctClassChar ',' (collapseRuns isSpaceChar ' ' (pyStrip l)) =
      collapseRuns isSpaceChar ' ' (pyStrip l) from
    collapseAux_no_match (fun c hc => (h1 c hc).2.2) false]
  exact List.filter_eq_self.mpr fun c hc => (h1 c hc).1

/-- Counterexample to C7: `text_normalize` is not idempotent.  On
`"a @ b"` the disallowed `'@'` is deleted after whitespace collapsing,
leaving a double space that only a second pass removes. -/
theorem C7_counterexample :
    text_normalize (text_normalize "a @ b") ≠ text_normalize "a @ b" := by decide

/-- Claim C7 as amended: one application of `text_normalize` need not be a
fixpoint, but two are: the double application is idempotent,
`text_normalize³ = text_normalize²`.  (Equivalently, `text_normalize` is
idempotent on every output of `text_normalize` up to the one remaining
whitespace re-collapse.) -/
theorem C7_normalize_squared_idempotent (x : String) :
    text_normalize (text_normalize (text_normalize x)) =
      text_normalize (text_normalize x) := by
  have key : ∀ y : String, (∀ c ∈ y.data, TameChar c) →
      text_normalize (text_normalize y) = text_normalize y := by
    intro y hy
    have h1 : text_normalize y = ⟨collapseRuns isSpaceChar ' ' (pyStrip y.data)⟩ := by
      simp only [text_normalize]
      rw [text_normalize_data_of_tame y.data hy]
    have h2 : ∀ c ∈ collapseRuns isSpaceChar ' ' (pyStrip y.data), TameChar c := by
      intro c hc
      rcases mem_collapseAux hc with rfl | hc2
      · exact tame_space
      · exact hy c (mem_pyStrip hc2)
    rw [h1]
    simp only [text_normalize]
    rw [text_normalize_data_of_tame _ h2]
    rw [collapseStrip_fix]
  have htame : ∀ c ∈ (text_normalize x).data, TameChar c := by
    simp only [text_normalize]
    exact tame_text_normalize_data x.data
  exact key (text_normalize x) htame

/-! ## The dispatcher claims (C2, C3, C8, C9) -/

/-- A trivial external module used to instantiate `Env` in concrete
witnesses: no normalizer, empty g2p output. -/
def trivModule : ExtModule where
  normalize := none
  g2pPair := fun _ => ([], [])
  g2pList := fun _ => []

/-- A concrete environment for witnesses. -/
def defaultEnv : Env where
  chinese := trivModule
  chinese2 := trivModule
  japanese := trivModule
  english := trivModule
  korean := trivModule
  cantonese := trivModule
  symbolsV1 := [","]
  symbolsV2 := [","]
  envVersion := none

theorem mem_validateSymbols {symbols phones : List String} {p : String}
    (h : p ∈ validateSymbols symbols phones) : p ∈ symbols ∨ p = "UNK" := by
  rcases List.mem_map.mp h with ⟨q, -, rfl⟩
  by_cases hqs : q ∈ symbols
  · rw [if_neg (not_not_intro hqs)]
    exact Or.inl hqs
  · rw [if_pos hqs]
    exact Or.inr rfl

theorem closure_of_some_eq {symbols X : List String} {Y : Option (List Nat)} {Z : String}
    {phones : List String} {word2ph : Option (List Nat)} {norm : String}
    (h : some (validateSymbols symbols X, Y, Z) = some (phones, word2ph, norm)) :
    ∀ p ∈ phones, p ∈ symbols ∨ p = "UNK" := by
  have h1 : validateSymbols symbols X = phones :=
    congrArg Prod.fst (Option.some.inj h)
  intro p hp
  rw [← h1] at hp
  exact mem_validateSymbols hp

theorem clean_special_closure (env : Env) (text language s t : String) (version : String)
    (phones : List String) (word2ph : Option (List Nat)) (norm : String)
    (h : clean_special env text language s t version = some (phones, word2ph, norm)) :
    ∀ p ∈ phones, p ∈ activeSymbols env version ∨ p = "UNK" := by
  simp only [clean_special] at h
  split_ifs at h <;> exact closure_of_some_eq h

/-- Claim C2: every token of the phoneme sequence returned by `clean_text`
is a member of the active symbol table (v1 for version `"v1"`, else v2)
or equals `"UNK"`; the substitution runs as the final step on every path. -/
theorem C2_symbol_closure (env : Env) (text language : String) (version : Option String)
    (phones : List String) (word2ph : Option (List Nat)) (norm : String)
    (h : clean_text env text language version = some (phones, word2ph, norm)) :
    ∀ p ∈ phones, p ∈ activeSymbols env (resolvedVersion env version) ∨ p = "UNK" := by
  simp only [clean_text] at h
  split at h
  · exact clean_special_closure _ _ _ _ _ _ _ _ _ h
  · split_ifs at h <;> exact closure_of_some_eq h

/-- Witness for C2: a concrete Vietnamese call whose tokens are all
outside the (tiny) active symbol table and hence all come back `"UNK"`. -/
theorem C2_symbol_closure_witness :
    "UNK" ∈ activeSymbols defaultEnv (resolvedVersion defaultEnv (some "v2")) ∨
      ("UNK" : String) = "UNK" :=
  C2_symbol_closure defaultEnv "xin chào" "vi" (some "v2")
    ["UNK", "UNK", "UNK", "UNK", "UNK"] (some [2, 3]) "xin chào" (by decide) "UNK" (by decide)

theorem lookup_en (v : String) : (language_module_map v).lookup "en" = some "english" := by
  unfold language_module_map
  split_ifs <;> decide

theorem getModule_english (env : Env) : getModule env "english" = env.english := by
  simp [getModule]

theorem find?_not_zh (text language : String) (h : (language == "zh") = false) :
    special.find? (fun st => strContainsSub text st.1 && (language == st.2.1)) = none := by
  simp [special, List.find?, h]

/-- The phoneme list the English strategy hands the dispatcher: its
(optional) normalizer applied to the text, fed to its list-returning
`g2p`. -/
def enRawPhones (env : Env) (text : String) : List String :=
  env.english.g2pList
    (match env.english.normalize with
     | some f => f text
     | none => text)

/-- Counterexample to C3: an English strategy returning a single phoneme
defeats the "length ≥ 4" reading: the dispatcher prepends one comma and
returns a 2-token sequence. -/
theorem C3_counterexample :
    clean_text
        { defaultEnv with
          english :=
            { normalize := none, g2pPair := fun _ => ([], []), g2pList := fun _ => ["x"] },
          symbolsV2 := [",", "x"] } "hi" "en" (some "v2") =
      some ([",", "x"], none, "hi") ∧
    ¬4 ≤ ([",", "x"] : List String).length := ⟨by decide, by decide⟩

/-- Claim C3 as amended: for the padded class (`"en"`), `word2ph` is absent
and the dispatcher prepends a single comma exactly when the strategy
returned fewer than 4 phonemes, so the returned length is the strategy's
length plus one in that case; the returned sequence has length ≥ 4 only
when the strategy already produced at least 3 phonemes. -/
theorem C3_en_padding (env : Env) (text : String) (version : Option String)
    (phones : List String) (word2ph : Option (List Nat)) (norm : String)
    (h : clean_text env text "en" version = some (phones, word2ph, norm)) :
    word2ph = none ∧
    phones.length =
      (if (enRawPhones env text).length < 4 then (enRawPhones env text).length + 1
       else (enRawPhones env text).length) ∧
    (3 ≤ (enRawPhones env text).length → 4 ≤ phones.length) := by
  simp only [clean_text, lookup_en, Option.getD_some, Option.isNone_some,
    Bool.false_eq_true, if_false, ite_self, find?_not_zh text "en" (by decide),
    getModule_english] at h
  rw [if_neg (by decide : ¬(("en" : String) = "zh" ∨ ("en" : String) = "yue")),
    if_neg (by decide : ¬("en" : String) = "vi")] at h
  simp only [if_true] at h
  have h2 := Option.some.inj h
  have hw : word2ph = none := (congrArg (fun r => r.2.1) h2).symm
  have hp : phones =
      validateSymbols (activeSymbols env (resolvedVersion env version))
        (if (enRawPhones env text).length < 4 then "," :: enRawPhones env text
         else enRawPhones env text) :=
    (congrArg Prod.fst h2).symm
  refine ⟨hw, ?_, ?_⟩
  · rw [hp]
    by_cases hlt : (enRawPhones env text).length < 4 <;>
      simp [validateSymbols, hlt]
  · intro h3
    rw [hp]
    by_cases hlt : (enRawPhones env text).length < 4 <;>
      simp [validateSymbols, hlt] <;> omega

/-- Witness for the amended C3 at the counterexample environment: the
strategy returned 1 phoneme, so the dispatcher returns 2 tokens. -/
theorem C3_en_padding_witness :
    (none : Option (List Nat)) = none ∧
    ([",", "x"] : List String).length =
      (if (enRawPhones
            { defaultEnv with
              english :=
                { normalize := none, g2pPair := fun _ => ([], []),
                  g2pList := fun _ => ["x"] },
              symbolsV2 := [",", "x"] } "hi").length < 4 then
        (enRawPhones
            { defaultEnv with
              english :=
                { normalize := none, g2pPair := fun _ => ([], []),
                  g2pList := fun _ => ["x"] },
              symbolsV2 := [",", "x"] } "hi").length + 1
       else
        (enRawPhones
            { defaultEnv with
              english :=
                { normalize := none, g2pPair := fun _ => ([], []),
                  g2pList := fun _ => ["x"] },
              symbolsV2 := [",", "x"] } "hi").length) ∧
    (3 ≤ (enRawPhones
            { defaultEnv with
              english :=
                { normalize := none, g2pPair := fun _ => ([], []),
                  g2pList := fun _ => ["x"] },
              symbolsV2 := [",", "x"] } "hi").length →
      4 ≤ ([",", "x"] : List String).length) :=
  C3_en_padding
    { defaultEnv with
      english :=
        { normalize := none, g2pPair := fun _ => ([], []), g2pList := fun _ => ["x"] },
      symbolsV2 := [",", "x"] } "hi" (some "v2") [",", "x"] none "hi" (by decide)

/-- Claim C8: when the language is not a key of the active registry,
`clean_text` behaves exactly as a call with language `"en"` and text
`" "`, and no error is raised. -/
theorem C8_unknown_language (env : Env) (text language : String) (version : Option String)
    (h : (language_module_map (resolvedVersion env version)).lookup language = none) :
    clean_text env text language version = clean_text env " " "en" version ∧
    (clean_text env text language version).isSome = true := by
  have hen := lookup_en (resolvedVersion env version)
  have heq : clean_text env text language version = clean_text env " " "en" version := by
    simp only [clean_text, h, hen, Option.isNone_none, Option.isNone_some,
      Bool.false_eq_true, if_true, if_false, ite_self]
  refine ⟨heq, ?_⟩
  rw [heq]
  simp only [clean_text, hen, Option.getD_some, Option.isNone_some, Bool.false_eq_true,
    if_false, ite_self, find?_not_zh " " "en" (by decide), getModule_english]
  rw [if_neg (by decide : ¬(("en" : String) = "zh" ∨ ("en" : String) = "yue")),
    if_neg (by decide : ¬("en" : String) = "vi")]
  simp only [if_true, Option.isSome_some]

/-- Witness for C8: `"fr"` is not in the v2 registry. -/
theorem C8_unknown_language_witness :
    clean_text defaultEnv "bonjour" "fr" (some "v2") =
      clean_text defaultEnv " " "en" (some "v2") ∧
    (clean_text defaultEnv "bonjour" "fr" (some "v2")).isSome = true :=
  C8_unknown_language defaultEnv "bonjour" "fr" (some "v2") (by decide)

/-- Claim C9: when a marker of the `special` list occurs in the text and the
language equals its trigger language, `clean_text` returns the result of
the `clean_special` path for that triple, the first matching triple in
list order winning (both triples trigger on `"zh"`; the `"￥"` triple is
checked first). -/
theorem C9_special_shortcircuit (env : Env) (text : String) (version : Option String) :
    (strContainsSub text "￥" = true →
      clean_text env text "zh" version =
        clean_special env text "zh" "￥" "SP2" (resolvedVersion env version)) ∧
    (strContainsSub text "￥" = false → strContainsSub text "^" = true →
      clean_text env text "zh" version =
        clean_special env text "zh" "^" "SP3" (resolvedVersion env version)) := by
  have hzh : ∀ v : String, (language_module_map v).lookup "zh" =
      some (if v = "v1" then "chinese" else "chinese2") := by
    intro v
    unfold language_module_map
    split_ifs <;> decide
  constructor
  · intro h1
    simp only [clean_text, hzh, Option.isNone_some, Bool.false_eq_true, if_false,
      ite_self, special, List.find?, h1, Bool.true_and, Bool.and_true, beq_self_eq_true]
  · intro h1 h2
    simp only [clean_text, hzh, Option.isNone_some, Bool.false_eq_true, if_false,
      ite_self, special, List.find?, h1, h2, Bool.true_and, Bool.and_true,
      beq_self_eq_true, Bool.false_and, Bool.and_false]

/-- Witness for C9: a text containing both markers takes the first
(`"￥"`) triple. -/
theorem C9_special_shortcircuit_witness :
    clean_text defaultEnv "a￥b^" "zh" (some "v2") =
      clean_special defaultEnv "a￥b^" "zh" "￥" "SP2"
        (resolvedVersion defaultEnv (some "v2")) :=
  (C9_special_shortcircuit defaultEnv "a￥b^" (some "v2")).1 (by decide)

/-- Witness for C1 at the concrete input of the spec's worked example. -/
theorem C1_vi_alignment_witness :
    (g2p "xin chào").2.sum = (g2p "xin chào").1.length ∧
    (clean_text defaultEnv "xin chào" "vi" (some "v2")).isSome = true :=
  ⟨C1_vi_alignment.1 "xin chào", C1_vi_alignment.2 defaultEnv "xin chào" (some "v2")⟩

/-- Witness for C6 at the concrete word `"chào"`. -/
theorem C6_g2p_per_word_witness : g2pWordTokens "chào" = claimWordTokens "chào" :=
  C6_g2p_per_word.1 "chào"

/-- Witness for C10 at the concrete input of the spec's worked example. -/
theorem C10_word2ph_shape_witness :
    (g2p "xin chào").2.length = (pySplitStr (text_normalize "xin chào")).length :=
  (C10_word2ph_shape "xin chào").1

/-- Witness for the amended C7 at the counterexample input itself. -/
theorem C7_normalize_squared_idempotent_witness :
    text_normalize (text_normalize (text_normalize "a @ b")) =
      text_normalize (text_normalize "a @ b") :=
  C7_normalize_squared_idempotent "a @ b"

end GPTSoVITS
